import Mathlib

/-!
Verification development for the proto-qm hydrogen-orbital visualizer
(source/main.cpp). The data model and operations below are a shallow
embedding of that file: C++ floats and doubles become exact rationals or
reals, pointers into the Program state become indices into a value store,
and the GLSL text emitted by the Formula Compiler and Shader Assembler is
embedded by its denotation (the real-valued function the emitted
expression computes at a sample point). Helpers that live in the excluded
math/util collaborators (fact, laguerre, sphericalHarmonics, CLAMP,
round) are modelled from the spec; each such definition says so in its
doc comment.
-/

namespace qm

/-! ## Constants (main.cpp lines 18-19, 114) -/

/-- Slider row height, main.cpp line 18: `sliderHeight = 0.05`. -/
def sliderHeight : ℚ := 0.05

/-- Slider width, main.cpp line 19: `sliderWidth = 0.65`. -/
def sliderWidth : ℚ := 0.65

/-- Fixed polynomial term budget, main.cpp line 114: `maxHPolyTermCount = 30`. -/
def maxHPolyTermCount : ℕ := 30

/-! ## Spec-modelled math helpers (factorial, clamp, round from the
excluded math/util collaborators) -/

/-- Modelled from the spec: the factorial helper `fact` of the excluded
math collaborator (spec section 1 lists factorial among the generic math
helpers; section 4.1 uses it in the normalization formula). -/
def fact (k : ℕ) : ℕ := Nat.factorial k

/-- Modelled from the spec: the `CLAMP(x, lo, hi)` helper of the excluded
util collaborator; spec section 3 requires the value clamped into the
inclusive range [min, max]. -/
def CLAMP (x lo hi : ℚ) : ℚ := if x < lo then lo else if hi < x then hi else x

/-- Modelled from the spec: the `round(v, decimals)` helper of the excluded
math collaborator; spec section 3 requires rounding to the declared decimal
count, so the value scaled by 10^decimals is rounded to the nearest integer
and scaled back. -/
def roundDec (v : ℚ) (d : ℕ) : ℚ := ((round (v * 10 ^ d) : ℤ) : ℚ) / 10 ^ d

/-! ## Slider (main.cpp lines 20-45)

The C++ Slider holds a pointer `float* value` into the Program state; the
embedding replaces the pointer by an index `idx` into a value store
`vals : ℕ → ℚ`. -/

/-- Slider record, main.cpp lines 20-26. -/
structure Slider where
  title : String
  min : ℚ
  max : ℚ
  idx : ℕ
  decimals : ℕ
  recompile : Bool

/-- Top edge of slider row i, main.cpp line 28. -/
def sliderTop (i : ℕ) : ℚ := 1 - i * sliderHeight

/-- Bottom edge of slider row i, main.cpp line 29. -/
def sliderBottom (i : ℕ) : ℚ := sliderTop (i + 1)

/-- Hit test of slider row i against a point, main.cpp lines 30-34. -/
def Slider.pointInside (_s : Slider) (i : ℕ) (p : ℚ × ℚ) : Bool :=
  decide (-1 ≤ p.1 ∧ p.1 < sliderWidth - 1 ∧ sliderBottom i < p.2 ∧ p.2 < sliderTop i)

/-- Pointer x-coordinate to slider value, main.cpp lines 40-44:
clamp the linear map of x into [min, max], then round to the declared
decimal count. -/
def Slider.coordToValue (s : Slider) (x : ℚ) : ℚ :=
  roundDec (CLAMP ((1 + x) / sliderWidth * (s.max - s.min) + s.min) s.min s.max) s.decimals

/-! ## Quantum-number clamping of the Formula Compiler
(main.cpp lines 228-234) -/

/-- Clamp of l into [0, n-1] (given l nonnegative), main.cpp lines 229-230:
`if (l > n - 1) l = n - 1;`. -/
def clampL (n l : ℤ) : ℤ := if n - 1 < l then n - 1 else l

/-- Clamp of m into [-l, l], main.cpp lines 231-234: two sequential
conditional assignments `if (m > 0 && m > l) m = l;` then
`if (m < 0 && m < -l) m = -l;`. -/
def clampM (l m : ℤ) : ℤ :=
  let m1 := if 0 < m ∧ l < m then l else m
  if m1 < 0 ∧ m1 < -l then -l else m1

/-! ## Polynomial coefficients (spec-modelled: laguerre and
sphericalHarmonics live in the excluded math collaborator) -/

/-- Modelled from the spec: `laguerre(coeff, k, a)` of the excluded math
collaborator fills the coefficients of the generalized Laguerre polynomial
L_k^(a) (spec section 4.1). Coefficient of x^i in L_k^(a):
(-1)^i * choose (k+a) (k-i) / i!. -/
def laguerreCoeffQ (k a i : ℕ) : ℚ :=
  if i ≤ k then (-1) ^ i * (Nat.choose (k + a) (k - i) : ℚ) / (Nat.factorial i : ℚ) else 0

/-- Coefficient of x^i in the Legendre polynomial P_l (auxiliary for the
spec-modelled sphericalHarmonics). -/
def legendreCoeffQ (l i : ℕ) : ℚ :=
  if i ≤ l ∧ (l - i) % 2 = 0 then
    ((-1) ^ ((l - i) / 2) * (Nat.choose l ((l - i) / 2) : ℚ) * (Nat.choose (l + i) l : ℚ)) / 2 ^ l
  else 0

/-- Coefficient of x^i in the m-th derivative of P_l (auxiliary for the
spec-modelled sphericalHarmonics). -/
def dLegendreCoeffQ (l m i : ℕ) : ℚ :=
  (Nat.factorial (i + m) : ℚ) / (Nat.factorial i : ℚ) * legendreCoeffQ l (i + m)

/-- Rational part of the spec-modelled spherical-harmonic coefficients:
the associated-Legendre-derived polynomial in cos theta of degree l and
order m (spec section 4.1), with the Condon-Shortley sign for m
nonnegative. The sin^|m| factor and the azimuthal phase are applied
separately at evaluation time, exactly as the spec states. -/
def spheCoeffQ (l : ℕ) (m : ℤ) (i : ℕ) : ℚ :=
  (if 0 ≤ m then (-1 : ℚ) ^ m.toNat else 1) * dLegendreCoeffQ l m.natAbs i

/-! ## Orbital Model (main.cpp lines 113-192) -/

/-- Complex number pair, the Complex struct of the math collaborator as
used by `value` (real part a, imaginary part b). -/
structure Complex where
  a : ℝ
  b : ℝ

/-- Hydrogen wave function coefficients, main.cpp lines 115-131. The two
coefficient arrays of length maxHPolyTermCount become functions on ℕ
(zero beyond the stored degree, as the C++ arrays are zero-initialized). -/
structure HWaveFunc where
  normalization : ℝ
  laguerreCoeff : ℕ → ℝ
  spheCoeff : ℕ → ℝ
  phase : ℝ
  n : ℤ
  l : ℤ
  m : ℤ
  a0 : ℝ

/-- Spherical-harmonic normalization factor of the spec-modelled
sphericalHarmonics: sqrt[(2l+1) (l-m)! / (4 pi (l+m)!)]. -/
noncomputable def shNorm (l mm : ℕ) : ℝ :=
  Real.sqrt ((2 * l + 1) * (Nat.factorial (l - mm)) / (4 * Real.pi * (Nat.factorial (l + mm))))

/-- Modelled from the spec: `sphericalHarmonics(coeff, l, m)` of the
excluded math collaborator fills the coefficients of the cos-theta
polynomial of the spherical harmonic Y(l, m) (spec section 4.1); the
normalization factor times the rational associated-Legendre part. -/
noncomputable def sphericalHarmonicsR (l : ℕ) (m : ℤ) (i : ℕ) : ℝ :=
  shNorm l m.natAbs * (spheCoeffQ l m i : ℝ)

/-- Constructor of HWaveFunc, main.cpp lines 133-155: stores n, l, m,
phase and the Bohr radius, computes the normalization
sqrt[(2/(n a0))^3 (n-l-1)! / (2n (n+l)!)] and fills the two coefficient
arrays by laguerre(n-l-1, 2l+1) and sphericalHarmonics(l, m). -/
noncomputable def createHWaveFunc (n l m : ℤ) (phase : ℝ) (bohr_radius : ℝ) : HWaveFunc where
  normalization := Real.sqrt ((2 / ((n : ℝ) * bohr_radius)) ^ 3 *
    (fact (n - l - 1).toNat : ℝ) / (2 * (n : ℝ) * (fact (n + l).toNat : ℝ)))
  laguerreCoeff := fun i => ((laguerreCoeffQ (n - l - 1).toNat (2 * l + 1).toNat i : ℚ) : ℝ)
  spheCoeff := fun i => sphericalHarmonicsR l.toNat m i
  phase := phase
  n := n
  l := l
  m := m
  a0 := bohr_radius

/-- Evaluation of the wave function at a point, main.cpp lines 157-192.
Note line 159: a local `a_0 = 1.0` is used for rho, not the stored Bohr
radius; and line 184: the sine factor is `pow(sin(theta), w->m)` with the
signed m (an integer exponent, embedded as zpow). -/
noncomputable def value (w : HWaveFunc) (r θ φ : ℝ) : Complex :=
  let a_0 : ℝ := 1
  let rho : ℝ := 2 * r / ((w.n : ℝ) * a_0)
  let ampC : ℝ := w.normalization
  let ampE : ℝ := ampC * (Real.exp (-rho / 2) * rho ^ w.l)
  let ampL : ℝ := ampE * (∑ i in Finset.range maxHPolyTermCount, w.laguerreCoeff i * rho ^ i)
  let cos_theta : ℝ := Real.cos θ
  let ySum : ℝ := ∑ i in Finset.range maxHPolyTermCount, w.spheCoeff i * cos_theta ^ i
  let ampY : ℝ := ampL * ((Real.sin θ) ^ w.m * ySum)
  let phase : ℝ := (w.m : ℝ) * φ + w.phase
  ⟨ampY * Real.cos phase, ampY * Real.sin phase⟩

/-- Modulus of the complex pair returned by `value`. -/
noncomputable def cmodulus (c : Complex) : ℝ := Real.sqrt (c.a ^ 2 + c.b ^ 2)

/-! ## Formula Compiler (main.cpp lines 220-305)

hydrogenWaveFuncStr emits an amplitude expression and a phase expression
with free variables r, sin_theta, cos_theta, phi. The embedding gives the
denotation of the emitted text: the real number the expression computes
once those variables are substituted. Sparse emission (zero coefficients
skipped, line 266 and 289) is kept as a conditional term, and odd powers
of possibly negative bases carry the emitted sign correction
sign(x) * pow(abs(x), k) (lines 279-282 and 293-297). -/

/-- GLSL sign function: -1, 0 or 1. -/
noncomputable def glslSign (x : ℝ) : ℝ := if x < 0 then -1 else if x = 0 then 0 else 1

/-- The ad-hoc brightness factor compiled into the normalization,
main.cpp line 251: `1.0 + 2.0*std::pow(n, 2.5)`. -/
noncomputable def bright (n : ℤ) : ℝ := 1 + 2 * (n : ℝ) ^ ((2.5 : ℝ))

/-- Denotation of the amplitude expression emitted by hydrogenWaveFuncStr
(main.cpp lines 221-299) at runtime values of r, sin_theta and cos_theta.
The quantum numbers are clamped first (lines 229-234); bohr_radius is the
local 1.0 of line 225; rho is the shared subexpression (2/bohr_radius/n)*r
of line 245. -/
noncomputable def hAmpDenote (n l m : ℤ) (r sin_theta cos_theta : ℝ) : ℝ :=
  let l2 := clampL n l
  let m2 := clampM l2 m
  let rho : ℝ := 2 / 1 / (n : ℝ) * r
  let k := (n - l2 - 1).toNat
  let a := (2 * l2 + 1).toNat
  let cpart : ℝ := Real.sqrt ((2 / ((n : ℝ) * 1)) ^ 3 *
    (fact (n - l2 - 1).toNat : ℝ) / (2 * (n : ℝ) * (fact (n + l2).toNat : ℝ))) * bright n
  let epart : ℝ := Real.exp (-rho / 2) * rho ^ l2.toNat
  let lpart : ℝ := ∑ i in Finset.range maxHPolyTermCount,
    (if laguerreCoeffQ k a i = 0 then 0 else (laguerreCoeffQ k a i : ℝ) * rho ^ i)
  let ypre : ℝ := if m2 = 0 then 1 else
    (if m2.natAbs % 2 = 1 then glslSign sin_theta else 1) * |sin_theta| ^ m2.natAbs
  let ysum : ℝ := ∑ i in Finset.range maxHPolyTermCount,
    (if spheCoeffQ l2.toNat m2 i = 0 then 0 else
      sphericalHarmonicsR l2.toNat m2 i *
        (if i = 0 then 1 else (if i % 2 = 1 then glslSign cos_theta else 1) * |cos_theta| ^ i))
  cpart * epart * lpart * (ypre * ysum)

/-- Denotation of the phase expression emitted by hydrogenWaveFuncStr,
main.cpp line 301: `m.0*phi + (phase)` with the clamped m. -/
noncomputable def hPhaseDenote (n l m : ℤ) (phase φ : ℝ) : ℝ :=
  ((clampM (clampL n l) m : ℤ) : ℝ) * φ + phase

/-- The complex amplitude the two emitted fragments represent at a point,
following the spec words of section 4.2: substituting the runtime
(r, theta, phi) into the amplitude and phase expressions, the represented
complex value is (amplitude cos(phase), amplitude sin(phase)) as
assembled by the accumulation macro of createVolumeShader. -/
noncomputable def compiledValue (n l m : ℤ) (phase r θ φ : ℝ) : Complex :=
  let amp := hAmpDenote n l m r (Real.sin θ) (Real.cos θ)
  let ph := hPhaseDenote n l m phase φ
  ⟨amp * Real.cos ph, amp * Real.sin ph⟩

/-! ## Shader Assembler (main.cpp lines 307-456)

The accumulation macro CALC_TOTAL_WAVEFUNC emits, per wave whose static
amplitude exceeds the 0.001 threshold (lines 404-406), the spherical
conversion of the sample position shifted by the wave translation and the
two accumulation statements

  total_real += a_i*cos(p_i)*amplitude;
  total_imag += a_i*sin(p_i);

(lines 407-422). The embedding folds these statements over the wave list. -/

/-- One user-configurable wave, main.cpp lines 91-99. The float quantum
numbers are passed to int parameters of hydrogenWaveFuncStr, and the
sliders driving them have zero decimals, so they are embedded as ℤ. -/
structure Wave where
  amplitude : ℚ
  phase : ℚ
  n : ℤ
  l : ℤ
  m : ℤ
  translation : ℚ
  particle : ℤ

/-- Two-argument arctangent with the GLSL atan(y, x) quadrant convention
(auxiliary base for the atan2 wrapper in the fragment shader template). -/
noncomputable def glslAtanYX (y x : ℝ) : ℝ :=
  if 0 < x then Real.arctan (y / x)
  else if x < 0 then
    (if 0 ≤ y then Real.arctan (y / x) + Real.pi else Real.arctan (y / x) - Real.pi)
  else if 0 < y then Real.pi / 2 else if y < 0 then -(Real.pi / 2) else 0

/-- The atan2 wrapper of the fragment shader template, main.cpp lines
362-368: branch on |x| > |y| to avoid the undefined atan(y, 0). -/
noncomputable def qmAtan2 (y x : ℝ) : ℝ :=
  if |y| < |x| then glslAtanYX y x else Real.pi / 2 - glslAtanYX x y

/-- The per-wave compiled amplitude a_i at a sample position: the sample
point shifted by the wave translation on z (line 408), converted to
r, phi, cos_theta, theta, sin_theta (lines 409-413), fed into the wave
amplitude fragment. -/
noncomputable def waveA (pos : ℝ × ℝ × ℝ) (w : Wave) : ℝ :=
  let z := pos.2.2 + (w.translation : ℝ)
  let r := Real.sqrt (pos.1 * pos.1 + pos.2.1 * pos.2.1 + z * z)
  let cos_theta := z / r
  let theta := Real.arccos cos_theta
  hAmpDenote w.n w.l w.m r (Real.sin theta) cos_theta

/-- The per-wave compiled phase p_i at a sample position. -/
noncomputable def waveP (pos : ℝ × ℝ × ℝ) (w : Wave) : ℝ :=
  let phi := qmAtan2 pos.2.1 pos.1
  hPhaseDenote w.n w.l w.m (w.phase : ℝ) phi

/-- One wave contribution of the accumulation macro: skipped entirely when
the static amplitude is at most 0.001 (lines 404-406); otherwise the
static weight multiplies the real statement only (lines 416-417). -/
noncomputable def accumStep (pos : ℝ × ℝ × ℝ) (st : ℝ × ℝ) (w : Wave) : ℝ × ℝ :=
  if w.amplitude ≤ 0.001 then st
  else (st.1 + waveA pos w * Real.cos (waveP pos w) * (w.amplitude : ℝ),
        st.2 + waveA pos w * Real.sin (waveP pos w))

/-- total_real and total_imag after the whole accumulation macro. -/
noncomputable def calcTotal (pos : ℝ × ℝ × ℝ) (waves : List Wave) : ℝ × ℝ :=
  waves.foldl (accumStep pos) (0, 0)

/-- total_amplitude of the sampling loop, main.cpp line 383:
total_real*total_real + total_imag*total_imag. -/
noncomputable def totalAmplitude (pos : ℝ × ℝ × ℝ) (waves : List Wave) : ℝ :=
  (calcTotal pos waves).1 * (calcTotal pos waves).1 +
    (calcTotal pos waves).2 * (calcTotal pos waves).2

/-- Per-sample probability P, main.cpp lines 385-386:
P = total_amplitude*total_amplitude, then `if (P < CUTOFF) P = 0;`. -/
noncomputable def sampleP (pos : ℝ × ℝ × ℝ) (waves : List Wave) (cutoff : ℝ) : ℝ :=
  if totalAmplitude pos waves * totalAmplitude pos waves < cutoff then 0
  else totalAmplitude pos waves * totalAmplitude pos waves

/-! ## addWave (main.cpp lines 488-508), wave-list part

addWave zero-initializes a Wave, sets n = 1, gives amplitude 1.0 only to
the first wave, and pushes it (lines 490-494); it then pushes six sliders
bound to the new wave fields, which do not bear on the wave-list claims. -/

/-- The wave addWave pushes, given the current wave list. -/
def newWave (ws : List Wave) : Wave :=
  { amplitude := if ws.length = 0 then 1 else 0
    phase := 0, n := 1, l := 0, m := 0, translation := 0, particle := 0 }

/-- Effect of addWave on the wave list. -/
def addWaveWave (ws : List Wave) : List Wave := ws ++ [newWave ws]

/-! ## Frame Orchestrator (main.cpp lines 682-730), slider pass

frame() first advances prog.time and prog.phase by the frame delta
(lines 684-685), then walks the sliders: on a hit with the button held it
writes the new value and, when the value changed and the slider is
recompile-flagged, destroys and recreates the volume shader program
(lines 694-721). The embedding counts shader recreations in `gen`. -/

/-- The environment inputs the slider pass consumes. -/
structure Env where
  anchor : ℚ × ℚ
  cursorX : ℚ
  lmbDown : Bool
  dt : ℚ

/-- Processing of one slider at row i, main.cpp lines 696-717. -/
def sliderStep (env : Env) (i : ℕ) (s : Slider) (st : (ℕ → ℚ) × ℕ) : (ℕ → ℚ) × ℕ :=
  if s.pointInside i env.anchor then
    if env.lmbDown then
      let nv := s.coordToValue env.cursorX
      (Function.update st.1 s.idx nv,
        if nv ≠ st.1 s.idx ∧ s.recompile then st.2 + 1 else st.2)
    else st
  else st

/-- The slider loop from row k on. -/
def sliderPassFrom (env : Env) : ℕ → List Slider → ((ℕ → ℚ) × ℕ) → (ℕ → ℚ) × ℕ
  | _, [], st => st
  | k, s :: rest, st => sliderPassFrom env (k + 1) rest (sliderStep env k s st)

/-- The whole slider loop of frame(), main.cpp lines 694-721. -/
def sliderPass (env : Env) (sliders : List Slider) (st : (ℕ → ℚ) × ℕ) : (ℕ → ℚ) × ℕ :=
  sliderPassFrom env 0 sliders st

/-- Index of prog.phase in the value store (the field the slider titled
Time binds, main.cpp line 610). -/
def phaseIdx : ℕ := 0

/-- The frame state the embedding tracks: prog.time, the slider-bound
fields, and the shader generation counter. -/
structure FrameState where
  time : ℚ
  vals : ℕ → ℚ
  gen : ℕ

/-- One call of frame(), the state-relevant part: lines 684-685 add the
frame delta to prog.time and prog.phase unconditionally, before the
slider pass runs. -/
def frameStep (env : Env) (sliders : List Slider) (st : FrameState) : FrameState :=
  let advanced := Function.update st.vals phaseIdx (st.vals phaseIdx + env.dt)
  let p := sliderPass env sliders (advanced, st.gen)
  ⟨st.time + env.dt, p.1, p.2⟩

/-- The default sliders of init, main.cpp lines 609-621, with the bound
fields phase, sampleCount, resoMul, filtering, r, g, b, complexColor,
absorption, cutoff, distance at store indices 0 to 10. -/
def defaultSliders : List Slider :=
  [ ⟨"Time", 0, 5, phaseIdx, 3, false⟩,
    ⟨"Samples", 5, 150, 1, 0, true⟩,
    ⟨"Resolution", 0.01, 1, 2, 2, false⟩,
    ⟨"Filtering", 0, 1, 3, 0, false⟩,
    ⟨"R", 0, 2, 4, 3, false⟩,
    ⟨"G", 0, 2, 5, 3, false⟩,
    ⟨"B", 0, 2, 6, 3, false⟩,
    ⟨"Complex color", 0, 1, 7, 0, true⟩,
    ⟨"Absorption", 0, 1, 8, 3, true⟩,
    ⟨"Cutoff", 0, 0.15, 9, 4, true⟩,
    ⟨"Distance", 0.2, 150, 10, 4, false⟩ ]

/-! ## Helper lemmas -/

theorem round_mono_q {x y : ℚ} (h : x ≤ y) : round x ≤ round y := by
  rw [round_eq, round_eq]
  exact Int.floor_mono (by linarith)

theorem CLAMP_mem {x lo hi : ℚ} (h : lo ≤ hi) : lo ≤ CLAMP x lo hi ∧ CLAMP x lo hi ≤ hi := by
  unfold CLAMP
  split_ifs with h1 h2 <;> constructor <;> linarith

/-- coordToValue stays inside [min, max] whenever both bounds are exact at
the declared decimal count. -/
theorem coordToValue_mem (s : Slider) (x : ℚ) (hlt : s.min < s.max)
    (ha : ∃ a : ℤ, s.min = (a : ℚ) / 10 ^ s.decimals)
    (hb : ∃ b : ℤ, s.max = (b : ℚ) / 10 ^ s.decimals) :
    s.min ≤ s.coordToValue x ∧ s.coordToValue x ≤ s.max := by
  obtain ⟨a, ha⟩ := ha
  obtain ⟨b, hb⟩ := hb
  have h10 : (0 : ℚ) < 10 ^ s.decimals := by positivity
  have hcl := CLAMP_mem (x := (1 + x) / sliderWidth * (s.max - s.min) + s.min) hlt.le
  set v := CLAMP ((1 + x) / sliderWidth * (s.max - s.min) + s.min) s.min s.max with hv
  have hmin : s.min * 10 ^ s.decimals = (a : ℚ) := by
    rw [ha]; field_simp
  have hmax : s.max * 10 ^ s.decimals = (b : ℚ) := by
    rw [hb]; field_simp
  have hlow : a ≤ round (v * 10 ^ s.decimals) := by
    have : round ((a : ℚ)) ≤ round (v * 10 ^ s.decimals) := by
      apply round_mono_q
      rw [← hmin]
      exact mul_le_mul_of_nonneg_right hcl.1 h10.le
    simpa using this
  have hhigh : round (v * 10 ^ s.decimals) ≤ b := by
    have : round (v * 10 ^ s.decimals) ≤ round ((b : ℚ)) := by
      apply round_mono_q
      rw [← hmax]
      exact mul_le_mul_of_nonneg_right hcl.2 h10.le
    simpa using this
  have hval : s.coordToValue x = ((round (v * 10 ^ s.decimals) : ℤ) : ℚ) / 10 ^ s.decimals := by
    simp only [Slider.coordToValue, roundDec, hv]
  constructor
  · rw [hval, ha]
    exact (div_le_div_iff_of_pos_right h10).mpr (by exact_mod_cast hlow)
  · rw [hval, hb]
    exact (div_le_div_iff_of_pos_right h10).mpr (by exact_mod_cast hhigh)

/-! ## Claim C3 -/

/-- C3 counterexample: the claim quantifies over every Slider with
min < max, but when a bound is not an exact multiple of 10^(-decimals)
the rounding applied after clamping can leave the range: min = 6/100 with
zero decimals and pointer x = -1 gives the clamped value 6/100, which
rounds to 0 < min. -/
theorem C3_counterexample :
    ¬ ∀ (s : Slider) (x : ℚ), s.min < s.max →
      s.min ≤ s.coordToValue x ∧ s.coordToValue x ≤ s.max ∧
        ∃ z : ℤ, s.coordToValue x = (z : ℚ) / 10 ^ s.decimals := by
  intro h
  have h6 : Slider.coordToValue ⟨"T", 6/100, 1, 0, 0, false⟩ (-1) = 0 := by
    norm_num [Slider.coordToValue, roundDec, CLAMP, sliderWidth, round_eq]
  have := (h ⟨"T", 6/100, 1, 0, 0, false⟩ (-1) (by norm_num)).1
  rw [h6] at this
  norm_num at this

/-- C3 (amended): for every Slider whose min and max are exact multiples
of 10^(-decimals), the coordinate-to-value mapping lands in [min, max]
and on a multiple of 10^(-decimals), and clamping happens before
rounding: on the range [0, 1] with 2 decimals, a raw computed value of
1.236 (pointer x = -983/5000) is stored as 1.0, not 1.24. Sliders whose
bounds are not exact at the declared precision (such as the Complex
phase slider of addWave, whose max is tau with 3 decimals) are outside
this hypothesis. -/
theorem C3_clamped_rounded :
    (∀ (s : Slider) (x : ℚ), s.min < s.max →
      (∃ a : ℤ, s.min = (a : ℚ) / 10 ^ s.decimals) →
      (∃ b : ℤ, s.max = (b : ℚ) / 10 ^ s.decimals) →
      s.min ≤ s.coordToValue x ∧ s.coordToValue x ≤ s.max ∧
        ∃ z : ℤ, s.coordToValue x = (z : ℚ) / 10 ^ s.decimals) ∧
    Slider.coordToValue ⟨"E", 0, 1, 0, 2, false⟩ (-983/5000) = 1 ∧
    (1 + (-983/5000 : ℚ)) / sliderWidth * (1 - 0) + 0 = 1.236 ∧
    Slider.coordToValue ⟨"E", 0, 1, 0, 2, false⟩ (-983/5000) ≠ 1.24 := by
  refine ⟨fun s x hlt ha hb => ⟨(coordToValue_mem s x hlt ha hb).1,
    (coordToValue_mem s x hlt ha hb).2, round (CLAMP ((1 + x) / sliderWidth *
      (s.max - s.min) + s.min) s.min s.max * 10 ^ s.decimals), rfl⟩, ?_, ?_, ?_⟩
  · norm_num [Slider.coordToValue, roundDec, CLAMP, sliderWidth, round_eq]
  · norm_num [sliderWidth]
  · norm_num [Slider.coordToValue, roundDec, CLAMP, sliderWidth, round_eq]

/-- C3 witness: the amended theorem applied to the Cutoff slider geometry
(range [0, 0.15], 4 decimals, both bounds exact) at pointer x = 0. -/
theorem C3_clamped_rounded_witness :
    (0 : ℚ) ≤ Slider.coordToValue ⟨"Cutoff", 0, 0.15, 9, 4, true⟩ 0 ∧
    Slider.coordToValue ⟨"Cutoff", 0, 0.15, 9, 4, true⟩ 0 ≤ 0.15 :=
  ⟨(C3_clamped_rounded.1 ⟨"Cutoff", 0, 0.15, 9, 4, true⟩ 0 (by norm_num)
      ⟨0, by norm_num⟩ ⟨1500, by norm_num⟩).1,
   (C3_clamped_rounded.1 ⟨"Cutoff", 0, 0.15, 9, 4, true⟩ 0 (by norm_num)
      ⟨0, by norm_num⟩ ⟨1500, by norm_num⟩).2.1⟩

/-! ## Claim C4 -/

/-- C4 counterexample: for n = 30, l = 0 the clamp leaves l at 0 and the
term-count bound n - l < maxHPolyTermCount fails, so the assertion at
main.cpp line 262 fires; the claim quantifies over every n >= 1. -/
theorem C4_counterexample :
    ¬ ∀ (n l m : ℤ), 1 ≤ n → 0 ≤ l →
      (clampL n l < n ∧ |clampM (clampL n l) m| ≤ clampL n l ∧
        n - clampL n l < (maxHPolyTermCount : ℤ) ∧
        clampL n l - 1 < (maxHPolyTermCount : ℤ)) := by
  intro h
  have := (h 30 0 0 (by norm_num) le_rfl).2.2.1
  simp [clampL, maxHPolyTermCount] at this

/-- C4 (amended): for every 1 <= n <= 29, l >= 0 and arbitrary integer m,
the clamping of l into [0, n-1] and then m into [-l, l] establishes the
Orbital Model contract n > l >= |m| and both polynomial-degree bounds
n - l < maxHPolyTermCount and l - 1 < maxHPolyTermCount, so none of the
assertions in the compilation path can fire. -/
theorem C4_clamp_establishes_contract (n l m : ℤ)
    (h1 : 1 ≤ n) (h29 : n ≤ 29) (h0 : 0 ≤ l) :
    clampL n l < n ∧ 0 ≤ clampL n l ∧ |clampM (clampL n l) m| ≤ clampL n l ∧
      n - clampL n l < (maxHPolyTermCount : ℤ) ∧
      clampL n l - 1 < (maxHPolyTermCount : ℤ) := by
  simp only [clampL, clampM, maxHPolyTermCount]
  split_ifs <;> simp_all [abs_le] <;> omega

/-- C4 witness: the amended theorem applied at n = 5, l = 7, m = -9. -/
theorem C4_clamp_establishes_contract_witness :
    (1:ℤ) ≤ 5 ∧ (5:ℤ) ≤ 29 ∧ (0:ℤ) ≤ 7 ∧
    (clampL 5 7 < 5 ∧ 0 ≤ clampL 5 7 ∧ |clampM (clampL 5 7) (-9)| ≤ clampL 5 7 ∧
      5 - clampL 5 7 < (maxHPolyTermCount : ℤ) ∧
      clampL 5 7 - 1 < (maxHPolyTermCount : ℤ)) :=
  ⟨by norm_num, by norm_num, by norm_num,
    C4_clamp_establishes_contract 5 7 (-9) (by norm_num) (by norm_num) (by norm_num)⟩

/-! ## Claims C5, C7, C9 -/

/-- A concrete wave used by witnesses: amplitude 1, quantum numbers
n = 1, l = 0, m = 0. -/
def wave0 : Wave := ⟨1, 0, 1, 0, 0, 0, 0⟩

/-- C5: in the accumulation macro, an included wave adds
a_i*cos(p_i)*amplitude to total_real and a_i*sin(p_i) -- without the
static amplitude weight -- to total_imag; consequently total_imag does
not depend on the static weight at all (as long as the wave stays above
the compile-out threshold). -/
theorem C5_weight_real_only (ws : List Wave) (w : Wave) (pos : ℝ × ℝ × ℝ)
    (h : (0.001 : ℚ) < w.amplitude) :
    (calcTotal pos (ws ++ [w])).1 =
      (calcTotal pos ws).1 + waveA pos w * Real.cos (waveP pos w) * (w.amplitude : ℝ) ∧
    (calcTotal pos (ws ++ [w])).2 =
      (calcTotal pos ws).2 + waveA pos w * Real.sin (waveP pos w) ∧
    ∀ a : ℚ, (0.001 : ℚ) < a →
      (calcTotal pos (ws ++ [{ w with amplitude := a }])).2 =
        (calcTotal pos (ws ++ [w])).2 := by
  have hfold : ∀ w2 : Wave, calcTotal pos (ws ++ [w2]) = accumStep pos (calcTotal pos ws) w2 := by
    intro w2
    simp [calcTotal, List.foldl_append]
  have hstep : accumStep pos (calcTotal pos ws) w =
      ((calcTotal pos ws).1 + waveA pos w * Real.cos (waveP pos w) * (w.amplitude : ℝ),
       (calcTotal pos ws).2 + waveA pos w * Real.sin (waveP pos w)) := by
    simp [accumStep, not_le.mpr h]
  refine ⟨by rw [hfold, hstep], by rw [hfold, hstep], fun a ha => ?_⟩
  have hA : waveA pos { w with amplitude := a } = waveA pos w := by simp [waveA]
  have hP : waveP pos { w with amplitude := a } = waveP pos w := by simp [waveP]
  rw [hfold, hfold, hstep]
  simp [accumStep, not_le.mpr ha, hA, hP]

/-- C5 witness: the theorem applied to the empty prefix, the concrete
wave wave0 and the origin sample position. -/
theorem C5_weight_real_only_witness :
    (0.001 : ℚ) < wave0.amplitude ∧
    (calcTotal (0, 0, 0) ([] ++ [wave0])).1 =
      (calcTotal (0, 0, 0) []).1 +
        waveA (0, 0, 0) wave0 * Real.cos (waveP (0, 0, 0) wave0) * (wave0.amplitude : ℝ) :=
  ⟨by norm_num [wave0], (C5_weight_real_only [] wave0 (0, 0, 0) (by norm_num [wave0])).1⟩

/-- C7: the per-sample probability equals the square of total_amplitude,
which is itself total_real^2 + total_imag^2, and any probability strictly
below the cutoff becomes exactly zero while any other is returned
unchanged -- a hard threshold with no smoothing. -/
theorem C7_cutoff_hard_threshold (pos : ℝ × ℝ × ℝ) (ws : List Wave) (cutoff : ℝ) :
    (totalAmplitude pos ws =
      (calcTotal pos ws).1 * (calcTotal pos ws).1 +
        (calcTotal pos ws).2 * (calcTotal pos ws).2) ∧
    (totalAmplitude pos ws * totalAmplitude pos ws < cutoff →
      sampleP pos ws cutoff = 0) ∧
    (cutoff ≤ totalAmplitude pos ws * totalAmplitude pos ws →
      sampleP pos ws cutoff = totalAmplitude pos ws * totalAmplitude pos ws) := by
  refine ⟨rfl, fun h => ?_, fun h => ?_⟩
  · unfold sampleP
    rw [if_pos h]
  · unfold sampleP
    rw [if_neg (not_lt.mpr h)]

/-- C7 witness: with no waves the totals are zero, so the probability at
cutoff 1 is cut to exactly zero. -/
theorem C7_cutoff_hard_threshold_witness : sampleP (0, 0, 0) [] 1 = 0 :=
  (C7_cutoff_hard_threshold (0, 0, 0) [] 1).2.1
    (by norm_num [totalAmplitude, calcTotal])

/-- C9: addWave gives amplitude 1 only to the first wave; every later
wave starts at amplitude 0, which sits at the 0.001 compile-out
threshold, so the newly added wave is skipped by the accumulation macro
and contributes nothing until its amplitude is raised. -/
theorem C9_new_wave_amplitude (ws : List Wave) :
    (ws = [] → (newWave ws).amplitude = 1) ∧
    (ws ≠ [] → (newWave ws).amplitude = 0 ∧ (newWave ws).amplitude ≤ 0.001 ∧
      (∀ pos st, accumStep pos st (newWave ws) = st) ∧
      ∀ pos, calcTotal pos (addWaveWave ws) = calcTotal pos ws) := by
  constructor
  · intro h
    simp [newWave, h]
  · intro h
    have hlen : ws.length ≠ 0 := fun h0 => h (List.length_eq_zero.mp h0)
    have hamp : (newWave ws).amplitude = 0 := by simp [newWave, hlen]
    have hle : (newWave ws).amplitude ≤ 0.001 := by rw [hamp]; norm_num
    refine ⟨hamp, hle, fun pos st => ?_, fun pos => ?_⟩
    · simp [accumStep, hle]
    · simp [addWaveWave, calcTotal, List.foldl_append, accumStep, hle]

/-- C9 witness: adding a wave to a one-wave list yields amplitude 0 and a
skipped accumulation step. -/
theorem C9_new_wave_amplitude_witness :
    (newWave [wave0]).amplitude = 0 ∧ accumStep (0, 0, 0) (0, 0) (newWave [wave0]) = (0, 0) := by
  have h := (C9_new_wave_amplitude [wave0]).2 (by simp)
  exact ⟨h.1, h.2.2.1 (0, 0, 0) (0, 0)⟩

/-! ## Claim C6 -/

theorem pointInside_iff {s : Slider} {i : ℕ} {p : ℚ × ℚ} :
    s.pointInside i p = true ↔
      (-1 ≤ p.1 ∧ p.1 < sliderWidth - 1 ∧ sliderBottom i < p.2 ∧ p.2 < sliderTop i) := by
  simp [Slider.pointInside]

/-- The slider rows are disjoint vertical bands, so one pointer position
hits at most one row. -/
theorem pointInside_unique {s t : Slider} {i j : ℕ} {p : ℚ × ℚ}
    (hi : s.pointInside i p = true) (hj : t.pointInside j p = true) : i = j := by
  rw [pointInside_iff] at hi hj
  have key : ∀ {a b : ℕ}, sliderBottom a < p.2 → p.2 < sliderTop b → b ≤ a := by
    intro a b hB hT
    have h2 : sliderBottom a < sliderTop b := lt_trans hB hT
    simp only [sliderBottom, sliderTop, sliderHeight] at h2
    push_cast at h2
    have hba : (b : ℚ) < (a : ℚ) + 1 := by linarith
    have : b < a + 1 := by exact_mod_cast hba
    omega
  exact le_antisymm (key hj.2.2.1 hi.2.2.2) (key hi.2.2.1 hj.2.2.2)

theorem sliderPassFrom_no_hit (env : Env) :
    ∀ (l : List Slider) (k : ℕ) (st : (ℕ → ℚ) × ℕ),
      (∀ j (hj : j < l.length), (l.get ⟨j, hj⟩).pointInside (k + j) env.anchor = false) →
      sliderPassFrom env k l st = st := by
  intro l
  induction l with
  | nil => intro k st _; rfl
  | cons s rest ih =>
    intro k st h
    have h0 : s.pointInside k env.anchor = false := by simpa using h 0 (by simp)
    have hstep : sliderStep env k s st = st := by simp [sliderStep, h0]
    rw [sliderPassFrom, hstep]
    exact ih (k + 1) st fun j hj => by
      have := h (j + 1) (by simpa using Nat.succ_lt_succ hj)
      simpa [Nat.add_assoc, Nat.add_comm 1 j] using this

theorem sliderPassFrom_lmb_false (env : Env) (hlmb : env.lmbDown = false) :
    ∀ (l : List Slider) (k : ℕ) (st : (ℕ → ℚ) × ℕ), sliderPassFrom env k l st = st := by
  intro l
  induction l with
  | nil => intro k st; rfl
  | cons s rest ih =>
    intro k st
    have hstep : sliderStep env k s st = st := by
      simp [sliderStep, hlmb]
    rw [sliderPassFrom, hstep]
    exact ih (k + 1) st

theorem sliderPassFrom_gen_spec (env : Env) :
    ∀ (l : List Slider) (k : ℕ) (vals : ℕ → ℚ) (gen : ℕ),
      (sliderPassFrom env k l (vals, gen)).2 ≠ gen ↔
        ∃ j, ∃ hj : j < l.length,
          (l.get ⟨j, hj⟩).pointInside (k + j) env.anchor = true ∧
          env.lmbDown = true ∧ (l.get ⟨j, hj⟩).recompile = true ∧
          (l.get ⟨j, hj⟩).coordToValue env.cursorX ≠ vals (l.get ⟨j, hj⟩).idx := by
  intro l
  induction l with
  | nil =>
    intro k vals gen
    simp [sliderPassFrom]
  | cons s rest ih =>
    intro k vals gen
    by_cases hhit : s.pointInside k env.anchor = true
    · have hrest : ∀ j (hj : j < rest.length),
          (rest.get ⟨j, hj⟩).pointInside (k + 1 + j) env.anchor = false := by
        intro j hj
        by_contra hc
        have hc2 : (rest.get ⟨j, hj⟩).pointInside (k + 1 + j) env.anchor = true := by
          simpa using hc
        have := pointInside_unique hhit hc2
        omega
      cases hlmb : env.lmbDown with
      | false =>
        have hstep : sliderStep env k s (vals, gen) = (vals, gen) := by
          simp [sliderStep, hlmb]
        rw [sliderPassFrom, hstep, sliderPassFrom_lmb_false env hlmb]
        simp only [ne_eq, not_true_eq_false, false_iff]
        rintro ⟨j, hj, -, hl, -⟩
        exact Bool.false_ne_true hl
      | true =>
        have hstep : sliderStep env k s (vals, gen) =
            (Function.update vals s.idx (s.coordToValue env.cursorX),
              if s.coordToValue env.cursorX ≠ vals s.idx ∧ s.recompile then gen + 1 else gen) := by
          simp [sliderStep, hhit, hlmb]
        rw [sliderPassFrom, hstep, sliderPassFrom_no_hit env rest (k + 1) _ hrest]
        constructor
        · intro hne
          by_cases hcond : s.coordToValue env.cursorX ≠ vals s.idx ∧ s.recompile
          · exact ⟨0, by simp, by simpa using hhit, rfl, by simpa using hcond.2,
              by simpa using hcond.1⟩
          · rw [if_neg hcond] at hne
            exact absurd rfl hne
        · rintro ⟨j, hj, hin, -, hrec, hch⟩
          cases j with
          | zero =>
            simp only [List.get] at hin hrec hch
            have hcond : s.coordToValue env.cursorX ≠ vals s.idx ∧ s.recompile := ⟨hch, hrec⟩
            rw [if_pos hcond]
            omega
          | succ j =>
            exfalso
            have hj2 : j < rest.length := by simpa using Nat.lt_of_succ_lt_succ hj
            have : (rest.get ⟨j, hj2⟩).pointInside (k + 1 + j) env.anchor = true := by
              have hget : (s :: rest).get ⟨j + 1, hj⟩ = rest.get ⟨j, hj2⟩ := rfl
              rw [hget] at hin
              simpa [Nat.add_assoc, Nat.add_comm 1 j] using hin
            rw [hrest j hj2] at this
            exact Bool.false_ne_true this
    · have hfalse : s.pointInside k env.anchor = false := by
        simpa using hhit
      have hstep : sliderStep env k s (vals, gen) = (vals, gen) := by
        simp [sliderStep, hfalse]
      rw [sliderPassFrom, hstep, ih (k + 1) vals gen]
      constructor
      · rintro ⟨j, hj, hin, hl, hrec, hch⟩
        refine ⟨j + 1, by simpa using Nat.succ_lt_succ hj, ?_, hl, ?_, ?_⟩
        · simpa [Nat.add_assoc, Nat.add_comm 1 j] using hin
        · exact hrec
        · exact hch
      · rintro ⟨j, hj, hin, hl, hrec, hch⟩
        cases j with
        | zero =>
          simp only [List.get] at hin
          rw [Nat.add_zero] at hin
          rw [hfalse] at hin
          exact absurd hin Bool.false_ne_true
        | succ j =>
          have hj2 : j < rest.length := by simpa using Nat.lt_of_succ_lt_succ hj
          refine ⟨j, hj2, ?_, hl, hrec, hch⟩
          have hget : (s :: rest).get ⟨j + 1, hj⟩ = rest.get ⟨j, hj2⟩ := rfl
          rw [hget] at hin
          simpa [Nat.add_assoc, Nat.add_comm 1 j] using hin

/-- C6: within one frame, the volume shader program is destroyed and
recreated exactly when the pointer edit of some slider row changes the
bound value of a recompile-flagged slider: the generation counter moves
iff some row is hit with the button held, is recompile-flagged, and its
freshly computed value differs from the stored one. A changed value on an
unflagged slider, or an edit that leaves the value unchanged, never
recompiles. -/
theorem C6_recompile_iff (env : Env) (sliders : List Slider) (vals : ℕ → ℚ) (gen : ℕ) :
    (sliderPass env sliders (vals, gen)).2 ≠ gen ↔
      ∃ j, ∃ hj : j < sliders.length,
        (sliders.get ⟨j, hj⟩).pointInside j env.anchor = true ∧
        env.lmbDown = true ∧ (sliders.get ⟨j, hj⟩).recompile = true ∧
        (sliders.get ⟨j, hj⟩).coordToValue env.cursorX ≠ vals (sliders.get ⟨j, hj⟩).idx := by
  have h := sliderPassFrom_gen_spec env sliders 0 vals gen
  simpa [sliderPass] using h

/-! ## Claim C10 -/

theorem frameStep_quiet (env : Env) (sliders : List Slider) (st : FrameState)
    (hlmb : env.lmbDown = false) :
    frameStep env sliders st =
      ⟨st.time + env.dt, Function.update st.vals phaseIdx (st.vals phaseIdx + env.dt), st.gen⟩ := by
  simp [frameStep, sliderPass, sliderPassFrom_lmb_false env hlmb]

/-- C10: frame() adds the frame delta to prog.time and to prog.phase
unconditionally before the slider pass; with no pointer interaction the
value bound to the slider titled Time (range [0, 5]) therefore grows past
every bound across frames, and only pointer edits through coordToValue
confine it to [0, 5]. -/
theorem C10_phase_unbounded_growth :
    (∀ (env : Env) (sliders : List Slider) (st : FrameState), env.lmbDown = false →
      (frameStep env sliders st).time = st.time + env.dt ∧
      (frameStep env sliders st).vals phaseIdx = st.vals phaseIdx + env.dt) ∧
    (∀ (sliders : List Slider) (st : FrameState) (d M : ℚ), 0 < d →
      ∃ k : ℕ, M < ((frameStep ⟨(2, 2), 0, false, d⟩ sliders)^[k] st).vals phaseIdx) ∧
    (defaultSliders.head? = some ⟨"Time", 0, 5, phaseIdx, 3, false⟩ ∧
      ∀ x : ℚ, 0 ≤ Slider.coordToValue ⟨"Time", 0, 5, phaseIdx, 3, false⟩ x ∧
        Slider.coordToValue ⟨"Time", 0, 5, phaseIdx, 3, false⟩ x ≤ 5) := by
  refine ⟨fun env sliders st hlmb => ?_, fun sliders st d M hd => ?_, rfl, fun x => ?_⟩
  · rw [frameStep_quiet env sliders st hlmb]
    simp
  · have hiter : ∀ k : ℕ,
        ((frameStep ⟨(2, 2), 0, false, d⟩ sliders)^[k] st).vals phaseIdx =
          st.vals phaseIdx + k * d := by
      intro k
      induction k with
      | zero => simp
      | succ k ihk =>
        rw [Function.iterate_succ_apply',
          frameStep_quiet ⟨(2, 2), 0, false, d⟩ sliders _ rfl]
        push_cast
        simp [ihk]
        ring
    obtain ⟨k, hk⟩ := exists_nat_gt ((M - st.vals phaseIdx) / d)
    refine ⟨k, ?_⟩
    rw [hiter k]
    have : M - st.vals phaseIdx < k * d := by
      rw [div_lt_iff₀ hd] at hk
      linarith
    linarith
  · exact coordToValue_mem ⟨"Time", 0, 5, phaseIdx, 3, false⟩ x (by norm_num)
      ⟨0, by norm_num⟩ ⟨5000, by norm_num⟩

/-- C10 witness: unbounded growth instantiated with delta 1 from the zero
state past the bound 100. -/
theorem C10_phase_unbounded_growth_witness :
    ∃ k : ℕ, (100 : ℚ) <
      ((frameStep ⟨(2, 2), 0, false, 1⟩ [])^[k] ⟨0, fun _ => 0, 0⟩).vals phaseIdx :=
  C10_phase_unbounded_growth.2.1 [] ⟨0, fun _ => 0, 0⟩ 1 100 (by norm_num)

/-! ## Claims C1 and C2: Formula Compiler versus Orbital Model -/

/-- The sign-corrected power emitted by the Formula Compiler equals the
plain signed power: sign(x) * |x|^k for odd k, |x|^k for even k. -/
theorem sgnpow_eq (x : ℝ) (k : ℕ) :
    (if k % 2 = 1 then glslSign x else 1) * |x| ^ k = x ^ k := by
  rcases Nat.even_or_odd k with he | ho
  · rw [if_neg (by have := Nat.even_iff.mp he; omega), one_mul, he.pow_abs]
  · rw [if_pos (Nat.odd_iff.mp ho)]
    rcases lt_trichotomy x 0 with hx | hx | hx
    · rw [abs_of_neg hx, glslSign, if_pos hx, ho.neg_pow]
      ring
    · subst hx
      have hk : k ≠ 0 := by rcases ho with ⟨t, ht⟩; omega
      simp [glslSign, zero_pow hk]
    · rw [abs_of_pos hx, glslSign, if_neg (not_lt.mpr hx.le), if_neg hx.ne']
      ring

/-- Skipping a zero coefficient does not change the value of a term. -/
theorem if_coeff_skip (c : ℚ) (t : ℝ) :
    (if c = 0 then (0 : ℝ) else (c : ℝ) * t) = (c : ℝ) * t := by
  split_ifs with h
  · simp [h]
  · rfl

theorem clampL_eq {n l : ℤ} (h : l ≤ n - 1) : clampL n l = l :=
  if_neg (not_lt.mpr h)

theorem clampM_eq {l m : ℤ} (h1 : -l ≤ m) (h2 : m ≤ l) : clampM l m = m := by
  simp only [clampM]
  split_ifs <;> omega

/-- A truncated polynomial sum whose terms vanish beyond index 0. -/
theorem sum_single_nonzero (t : ℕ → ℝ)
    (hz : ∀ i ∈ Finset.range maxHPolyTermCount, i ≠ 0 → t i = 0) :
    ∑ i in Finset.range maxHPolyTermCount, t i = t 0 :=
  Finset.sum_eq_single_of_mem 0 (by simp [maxHPolyTermCount]) hz

/-- The emitted Laguerre sum denotes the same value as the evaluation
loop of `value` (sparse emission only skips zero terms). -/
theorem lag_sum_eq (k a : ℕ) (x : ℝ) :
    (∑ i in Finset.range maxHPolyTermCount,
      if laguerreCoeffQ k a i = 0 then (0 : ℝ) else (laguerreCoeffQ k a i : ℝ) * x ^ i) =
    ∑ i in Finset.range maxHPolyTermCount, (laguerreCoeffQ k a i : ℝ) * x ^ i :=
  Finset.sum_congr rfl fun _ _ => if_coeff_skip _ _

/-- The emitted angular sum, with its per-term sign corrections, denotes
the same value as the evaluation loop of `value`. -/
theorem sphe_sum_eq (lnat : ℕ) (mz : ℤ) (x : ℝ) :
    (∑ i in Finset.range maxHPolyTermCount,
      if spheCoeffQ lnat mz i = 0 then (0 : ℝ) else
        sphericalHarmonicsR lnat mz i *
          (if i = 0 then 1 else (if i % 2 = 1 then glslSign x else 1) * |x| ^ i)) =
    ∑ i in Finset.range maxHPolyTermCount, sphericalHarmonicsR lnat mz i * x ^ i := by
  refine Finset.sum_congr rfl fun i _ => ?_
  by_cases h : spheCoeffQ lnat mz i = 0
  · rw [if_pos h]
    have hR : sphericalHarmonicsR lnat mz i = 0 := by simp [sphericalHarmonicsR, h]
    rw [hR, zero_mul]
  · rw [if_neg h]
    congr 1
    by_cases hi : i = 0
    · subst hi
      simp
    · rw [if_neg hi, sgnpow_eq]

/-- The emitted sin-theta prefactor equals the signed integer power for
nonnegative m. -/
theorem ypre_eq (m : ℤ) (hm0 : 0 ≤ m) (s : ℝ) :
    (if m = 0 then (1 : ℝ) else
      (if m.natAbs % 2 = 1 then glslSign s else 1) * |s| ^ m.natAbs) = s ^ m := by
  by_cases h : m = 0
  · subst h
    simp
  · rw [if_neg h, sgnpow_eq, ← zpow_natCast, Int.natAbs_of_nonneg hm0]

/-- For valid quantum numbers with nonnegative m, the two fragments the
Formula Compiler emits reproduce the complex amplitude of `value` exactly
(over the reals), once the brightness factor is taken out. -/
theorem compiled_matches_value_of_m_nonneg (n l m : ℤ) (ph r θ φ : ℝ)
    (hl0 : 0 ≤ l) (hln : l < n) (hm0 : 0 ≤ m) (hml : m ≤ l) :
    compiledValue n l m ph r θ φ =
      ⟨bright n * (value (createHWaveFunc n l m ph 1) r θ φ).a,
       bright n * (value (createHWaveFunc n l m ph 1) r θ φ).b⟩ := by
  have hcl : clampL n l = l := clampL_eq (by omega)
  have hcm : clampM l m = m := clampM_eq (by omega) (by omega)
  have hrho : (2 / 1 / (n : ℝ)) * r = 2 * r / ((n : ℝ) * 1) := by ring
  have hlz : ((2 * r / ((n : ℝ) * 1)) : ℝ) ^ l.toNat = (2 * r / ((n : ℝ) * 1)) ^ l := by
    rw [← zpow_natCast, Int.toNat_of_nonneg hl0]
  have hsin : (Real.sin θ) ^ m.natAbs = (Real.sin θ) ^ m := by
    rw [← zpow_natCast, Int.natAbs_of_nonneg hm0]
  simp only [compiledValue, value, createHWaveFunc, hAmpDenote, hPhaseDenote, hcl, hcm]
  simp only [hrho, lag_sum_eq, sphe_sum_eq, ypre_eq m hm0, hlz, hsin]
  simp only [Complex.mk.injEq, mul_one]
  constructor <;> ring

/-! ## Concrete evaluations at the failing input of C1 and C2 -/

theorem lag03_sum : (∑ x in Finset.range maxHPolyTermCount, ((laguerreCoeffQ 0 3 x : ℚ) : ℝ)) = 1 := by
  rw [sum_single_nonzero]
  · norm_num [laguerreCoeffQ]
  · intro i _ hine
    rw [laguerreCoeffQ, if_neg (by omega)]
    norm_num

theorem sphe_neg_sum (c : ℝ) :
    (∑ x in Finset.range maxHPolyTermCount, sphericalHarmonicsR 1 (-1) x * c ^ x) = shNorm 1 1 := by
  rw [sum_single_nonzero]
  · norm_num [sphericalHarmonicsR, spheCoeffQ, dLegendreCoeffQ, legendreCoeffQ]
  · intro i _ hine
    have hleg : legendreCoeffQ 1 (i + 1) = 0 := by
      rw [legendreCoeffQ, if_neg]
      rintro ⟨h1, -⟩
      omega
    simp [sphericalHarmonicsR, spheCoeffQ, dLegendreCoeffQ, hleg]

theorem sphe_pos_sum (c : ℝ) :
    (∑ x in Finset.range maxHPolyTermCount, sphericalHarmonicsR 1 1 x * c ^ x) = -(shNorm 1 1) := by
  rw [sum_single_nonzero]
  · norm_num [sphericalHarmonicsR, spheCoeffQ, dLegendreCoeffQ, legendreCoeffQ]
  · intro i _ hine
    have hleg : legendreCoeffQ 1 (i + 1) = 0 := by
      rw [legendreCoeffQ, if_neg]
      rintro ⟨h1, -⟩
      omega
    simp [sphericalHarmonicsR, spheCoeffQ, dLegendreCoeffQ, hleg]

theorem value_eval_neg :
    value (createHWaveFunc 2 1 (-1) 0 1) 1 (Real.pi / 6) 0 =
      ⟨Real.sqrt (1 / 24) * Real.exp (-(1 / 2)) * (2 * shNorm 1 1), 0⟩ := by
  have h3 : Int.toNat 3 = 3 := rfl
  simp only [value, createHWaveFunc]
  norm_num [h3, lag03_sum, sphe_neg_sum, fact]
  left
  rw [show ((Nat.factorial 3 : ℕ) : ℝ) = 6 by norm_num [Nat.factorial], ← mul_inv,
    ← Real.sqrt_mul (by norm_num : (0:ℝ) ≤ 6) 4]
  norm_num

theorem value_eval_pos :
    value (createHWaveFunc 2 1 1 0 1) 1 (Real.pi / 6) 0 =
      ⟨-(Real.sqrt (1 / 24) * Real.exp (-(1 / 2)) * (shNorm 1 1 / 2)), 0⟩ := by
  have h3 : Int.toNat 3 = 3 := rfl
  simp only [value, createHWaveFunc]
  norm_num [h3, lag03_sum, sphe_pos_sum, fact]
  rw [show ((Nat.factorial 3 : ℕ) : ℝ) = 6 by norm_num [Nat.factorial]]
  rw [show ((√24)⁻¹ : ℝ) = (√6)⁻¹ * (√4)⁻¹ by
    rw [← mul_inv, ← Real.sqrt_mul (by norm_num : (0:ℝ) ≤ 6) 4]
    norm_num]
  ring

theorem lag03_if_sum (c : ℝ) :
    (∑ x in Finset.range maxHPolyTermCount,
      if laguerreCoeffQ 0 3 x = 0 then (0:ℝ) else (laguerreCoeffQ 0 3 x : ℝ) * c ^ x) = 1 := by
  rw [sum_single_nonzero]
  · norm_num [laguerreCoeffQ]
  · intro i _ hine
    rw [if_pos]
    rw [laguerreCoeffQ, if_neg (by omega)]

theorem sphe_neg_if_sum (c : ℝ) :
    (∑ x in Finset.range maxHPolyTermCount,
      if spheCoeffQ 1 (-1) x = 0 then (0:ℝ) else
        sphericalHarmonicsR 1 (-1) x *
          (if x = 0 then 1 else (if x % 2 = 1 then glslSign c else 1) * |c| ^ x)) =
    shNorm 1 1 := by
  rw [sum_single_nonzero]
  · rw [if_neg (by norm_num [spheCoeffQ, dLegendreCoeffQ, legendreCoeffQ])]
    norm_num [sphericalHarmonicsR, spheCoeffQ, dLegendreCoeffQ, legendreCoeffQ]
  · intro i _ hine
    rw [if_pos]
    have hleg : legendreCoeffQ 1 (i + 1) = 0 := by
      rw [legendreCoeffQ, if_neg]
      rintro ⟨h1, -⟩
      omega
    simp [spheCoeffQ, dLegendreCoeffQ, hleg]

theorem hAmp_eval_neg :
    hAmpDenote 2 1 (-1) 1 (Real.sin (Real.pi / 6)) (Real.cos (Real.pi / 6)) =
      Real.sqrt (1 / 24) * bright 2 * Real.exp (-(1 / 2)) * (1 / 2 * shNorm 1 1) := by
  have hcl : clampL 2 1 = 1 := by decide
  have hcm : clampM 1 (-1) = -1 := by decide
  have hsgn : glslSign (Real.sin (Real.pi / 6)) = 1 := by
    rw [Real.sin_pi_div_six, glslSign]
    norm_num
  simp only [hAmpDenote, hcl, hcm]
  rw [show ((2:ℤ) - 1 - 1).toNat = 0 from rfl, show ((2:ℤ) * 1 + 1).toNat = 3 from rfl,
    show ((1:ℤ)).toNat = 1 from rfl, show ((2:ℤ) + 1).toNat = 3 from rfl,
    show (Int.natAbs (-1)) = 1 from rfl]
  rw [lag03_if_sum, sphe_neg_if_sum]
  rw [if_neg (by norm_num : ¬ ((-1 : ℤ) = 0))]
  have hsgn2 : glslSign ((1:ℝ) / 2) = 1 := by
    rw [glslSign]
    norm_num
  norm_num [fact, Real.sin_pi_div_six, hsgn2]
  rw [show ((Nat.factorial 3 : ℕ) : ℝ) = 6 by norm_num [Nat.factorial]]
  rw [show ((√24)⁻¹ : ℝ) = (√6)⁻¹ * (√4)⁻¹ by
    rw [← mul_inv, ← Real.sqrt_mul (by norm_num : (0:ℝ) ≤ 6) 4]
    norm_num]
  rw [abs_of_pos (show (0:ℝ) < 1/2 by norm_num)]

theorem shNorm11_pos : 0 < shNorm 1 1 := by
  rw [shNorm]
  apply Real.sqrt_pos.mpr
  norm_num [Nat.factorial]
  positivity

theorem bright2_pos : 0 < bright 2 := by
  rw [bright]
  positivity

/-- C1: at the failing input n = 2, l = 1, m = -1, phase = 0, r = 1,
theta = pi/6, phi = 0, the complex amplitude represented by the two
fragments hydrogenWaveFuncStr emits does not reproduce the output of
value scaled by the brightness factor: value multiplies by
pow(sin theta, m) = 2 (a negative power of the sine) while the compiled
expression multiplies by the sign-corrected pow(abs(sin_theta), |m|)
= 1/2, as the spherical-harmonic documentation of both functions
requires; the two sides differ by the factor sin(theta)^(2m) = 4. -/
theorem C1_compiled_vs_value_negative_m :
    compiledValue 2 1 (-1) 0 1 (Real.pi / 6) 0 ≠
      ⟨bright 2 * (value (createHWaveFunc 2 1 (-1) 0 1) 1 (Real.pi / 6) 0).a,
       bright 2 * (value (createHWaveFunc 2 1 (-1) 0 1) 1 (Real.pi / 6) 0).b⟩ := by
  intro heq
  have ha := congrArg Complex.a heq
  have hcomp : (compiledValue 2 1 (-1) 0 1 (Real.pi / 6) 0).a =
      Real.sqrt (1 / 24) * bright 2 * Real.exp (-(1 / 2)) * (1 / 2 * shNorm 1 1) := by
    simp only [compiledValue]
    have hph : hPhaseDenote 2 1 (-1) 0 0 = 0 := by
      simp [hPhaseDenote]
    rw [hph, Real.cos_zero, hAmp_eval_neg, mul_one]
  have hval : (value (createHWaveFunc 2 1 (-1) 0 1) 1 (Real.pi / 6) 0).a =
      Real.sqrt (1 / 24) * Real.exp (-(1 / 2)) * (2 * shNorm 1 1) := by
    rw [value_eval_neg]
  rw [hcomp, hval] at ha
  have hq : 0 < Real.sqrt (1/24) * bright 2 * Real.exp (-(1/2)) * shNorm 1 1 :=
    mul_pos (mul_pos (mul_pos (Real.sqrt_pos.mpr (by norm_num)) bright2_pos)
      (Real.exp_pos _)) shNorm11_pos
  have ha2 : Real.sqrt (1/24) * bright 2 * Real.exp (-(1/2)) * shNorm 1 1 * (1/2) =
      Real.sqrt (1/24) * bright 2 * Real.exp (-(1/2)) * shNorm 1 1 * 2 := by
    linear_combination ha
  linarith

/-- C2: the modulus of value is not invariant under the sign flip of m.
At n = 2, l = 1, r = 1, theta = pi/6, phi = 0 the modulus for m = -1 is
4 times the modulus for m = +1 (the factor sin(theta)^(2m)), because
value uses pow(sin(theta), m) with the signed m where the
spherical-harmonic form it documents carries sin^|m|; the moduli are
nonzero and differ. -/
theorem C2_modulus_not_m_sign_invariant :
    cmodulus (value (createHWaveFunc 2 1 (-1) 0 1) 1 (Real.pi / 6) 0) =
        4 * cmodulus (value (createHWaveFunc 2 1 1 0 1) 1 (Real.pi / 6) 0) ∧
    cmodulus (value (createHWaveFunc 2 1 1 0 1) 1 (Real.pi / 6) 0) ≠ 0 ∧
    cmodulus (value (createHWaveFunc 2 1 (-1) 0 1) 1 (Real.pi / 6) 0) ≠
      cmodulus (value (createHWaveFunc 2 1 1 0 1) 1 (Real.pi / 6) 0) := by
  have hcm : ∀ x : ℝ, cmodulus ⟨x, 0⟩ = |x| := fun x => by
    rw [cmodulus]
    norm_num
    rw [Real.sqrt_sq_eq_abs]
  have hA : 0 < Real.sqrt (1/24) * Real.exp (-(1/2)) * shNorm 1 1 :=
    mul_pos (mul_pos (Real.sqrt_pos.mpr (by norm_num)) (Real.exp_pos _)) shNorm11_pos
  rw [value_eval_neg, value_eval_pos, hcm, hcm]
  have habs1 : |Real.sqrt (1 / 24) * Real.exp (-(1 / 2)) * (2 * shNorm 1 1)| =
      Real.sqrt (1 / 24) * Real.exp (-(1 / 2)) * (2 * shNorm 1 1) :=
    abs_of_pos (by nlinarith)
  have habs2 : |-(Real.sqrt (1 / 24) * Real.exp (-(1 / 2)) * (shNorm 1 1 / 2))| =
      Real.sqrt (1 / 24) * Real.exp (-(1 / 2)) * (shNorm 1 1 / 2) := by
    rw [abs_neg]
    exact abs_of_pos (by nlinarith)
  rw [habs1, habs2]
  refine ⟨by ring, by nlinarith, by nlinarith⟩


/-! ## Claim C8 -/

/-- C8: value computes rho from the local a_0 = 1.0 and ignores the
stored Bohr radius, while the stored normalization does use it: a wave
function constructed with Bohr radius b stores a0 = b, and its value at
every point is the b = 1 value scaled by the constant 1/sqrt(b^3) only
-- the radial envelope and Laguerre sum never rescale -- although the
stored normalization itself genuinely differs for b different from 1. -/
theorem C8_bohr_radius_ignored_in_value (n l m : ℤ) (ph b r θ φ : ℝ)
    (hn : 1 ≤ n) (hb : 0 < b) :
    (createHWaveFunc n l m ph b).a0 = b ∧
    (value (createHWaveFunc n l m ph b) r θ φ).a =
      (Real.sqrt (b ^ 3))⁻¹ * (value (createHWaveFunc n l m ph 1) r θ φ).a ∧
    (value (createHWaveFunc n l m ph b) r θ φ).b =
      (Real.sqrt (b ^ 3))⁻¹ * (value (createHWaveFunc n l m ph 1) r θ φ).b ∧
    (b ≠ 1 → (createHWaveFunc n l m ph b).normalization ≠
      (createHWaveFunc n l m ph 1).normalization) := by
  have hone : (1 : ℝ) ≤ (n : ℝ) := by exact_mod_cast hn
  have hn0 : (0 : ℝ) < (n : ℝ) := by linarith
  have hbne : b ≠ 0 := ne_of_gt hb
  have harg : (2 / ((n : ℝ) * b)) ^ 3 * (fact (n - l - 1).toNat : ℝ) /
      (2 * (n : ℝ) * (fact (n + l).toNat : ℝ)) =
      (b ^ 3)⁻¹ * ((2 / ((n : ℝ) * 1)) ^ 3 * (fact (n - l - 1).toNat : ℝ) /
        (2 * (n : ℝ) * (fact (n + l).toNat : ℝ))) := by
    field_simp
    ring
  have hnorm : (createHWaveFunc n l m ph b).normalization =
      (Real.sqrt (b ^ 3))⁻¹ * (createHWaveFunc n l m ph 1).normalization := by
    simp only [createHWaveFunc]
    rw [harg, Real.sqrt_mul (by positivity) _, Real.sqrt_inv]
  have hscale : (value (createHWaveFunc n l m ph b) r θ φ).a =
      (Real.sqrt (b ^ 3))⁻¹ * (value (createHWaveFunc n l m ph 1) r θ φ).a ∧
      (value (createHWaveFunc n l m ph b) r θ φ).b =
      (Real.sqrt (b ^ 3))⁻¹ * (value (createHWaveFunc n l m ph 1) r θ φ).b := by
    simp only [value]
    rw [show (createHWaveFunc n l m ph b).n = (createHWaveFunc n l m ph 1).n from rfl,
      show (createHWaveFunc n l m ph b).l = (createHWaveFunc n l m ph 1).l from rfl,
      show (createHWaveFunc n l m ph b).m = (createHWaveFunc n l m ph 1).m from rfl,
      show (createHWaveFunc n l m ph b).phase = (createHWaveFunc n l m ph 1).phase from rfl,
      show (createHWaveFunc n l m ph b).laguerreCoeff =
        (createHWaveFunc n l m ph 1).laguerreCoeff from rfl,
      show (createHWaveFunc n l m ph b).spheCoeff =
        (createHWaveFunc n l m ph 1).spheCoeff from rfl,
      hnorm]
    constructor <;> ring
  refine ⟨rfl, hscale.1, hscale.2, fun hb1 heq => ?_⟩
  have hpos1 : 0 < (createHWaveFunc n l m ph 1).normalization := by
    simp only [createHWaveFunc]
    apply Real.sqrt_pos.mpr
    have h1 : (0 : ℝ) < (fact (n - l - 1).toNat : ℝ) :=
      Nat.cast_pos.mpr (Nat.factorial_pos _)
    have h2 : (0 : ℝ) < (fact (n + l).toNat : ℝ) :=
      Nat.cast_pos.mpr (Nat.factorial_pos _)
    have h3 : (0 : ℝ) < 2 / ((n : ℝ) * 1) := by positivity
    have h4 : (0 : ℝ) < 2 * (n : ℝ) * (fact (n + l).toNat : ℝ) := by positivity
    positivity
  rw [hnorm] at heq
  have hfac : ((Real.sqrt (b ^ 3))⁻¹ - 1) * (createHWaveFunc n l m ph 1).normalization = 0 := by
    linear_combination heq
  rcases mul_eq_zero.mp hfac with hzero | hzero
  · have hinv : (Real.sqrt (b ^ 3))⁻¹ = 1 := by linarith
    have hsq1 : Real.sqrt (b ^ 3) = 1 := inv_eq_one.mp hinv
    have hb3 : b ^ 3 = 1 := by
      have := Real.sqrt_eq_one.mp hsq1
      exact this
    rcases lt_trichotomy b 1 with hlt | heq1 | hgt
    · have : b ^ 3 < 1 := pow_lt_one₀ hb.le hlt (by norm_num)
      linarith
    · exact hb1 heq1
    · have : 1 < b ^ 3 := one_lt_pow₀ hgt (by norm_num)
      linarith
  · linarith

/-- C8 witness: the scaling identity at n = 1, Bohr radius 4. -/
theorem C8_bohr_radius_ignored_in_value_witness :
    (value (createHWaveFunc 1 0 0 0 4) 1 0 0).a =
      (Real.sqrt (4 ^ 3))⁻¹ * (value (createHWaveFunc 1 0 0 0 1) 1 0 0).a :=
  (C8_bohr_radius_ignored_in_value 1 0 0 0 4 1 0 0 le_rfl (by norm_num)).2.1

end qm
